import Mathlib

/-!
Verification of the pg_container pack-and-build pipeline.

This development is a shallow embedding of `main.go` of the `pg_container`
repository.  The program snapshots a live Postgres database into a Docker
image: it derives a database name from a connection URL
(`extractDatabaseName`), runs an embedded `pg_dump` binary capturing its
standard output (`runPgDumpToTar`), packs the dump and an embedded
`Dockerfile` into an in-memory tar archive (Go `archive/tar`), submits the
archive to the Docker build API (`createDockerImage`) and optionally creates
a container (`createContainer`).

Modelling conventions:
* Go strings are `List Char`; raw byte buffers are `List Nat` with values
  below 256 where it matters.
* The tar encoding produced by Go `archive/tar` for the two headers written
  by the program (regular files, short names, small sizes, zero
  uid/gid/mtime) is the USTAR layout; it is modelled byte-for-byte,
  including the checksum field, and a reader in the style of Go
  `archive/tar.Reader` is modelled to state the round-trip property.
* The effectful pipeline is modelled as a function from the responses of
  the external world (subprocess result, Docker engine responses) to the
  ordered list of observable events plus the final outcome (normal return
  or panic).
-/

/-- ASCII codes of a Lean string literal, used to transcribe the Go string
and byte-slice constants of the program. -/
def asciiBytes (s : String) : List Nat :=
  s.data.map Char.toNat

/-- Base-`b` digits of `n`, most significant last, computed with explicit
fuel so that the definition is structural (kernel-reducible).  `digitsF b n`
agrees with Mathlib's `Nat.digits b n` (see `digitsF_eq_digits`). -/
def digitsAuxF (b : Nat) : Nat → Nat → List Nat
  | 0, _ => []
  | fuel + 1, n => if n = 0 then [] else n % b :: digitsAuxF b fuel (n / b)

/-- Little-endian base-`b` digits of `n` (empty for `n = 0`). -/
def digitsF (b n : Nat) : List Nat :=
  digitsAuxF b n n

lemma digitsAuxF_eq_digits (b : Nat) (hb : 1 < b) :
    ∀ fuel n, n ≤ fuel → digitsAuxF b fuel n = Nat.digits b n := by
  intro fuel
  induction fuel with
  | zero =>
    intro n hn
    interval_cases n
    simp [digitsAuxF]
  | succ f ih =>
    intro n hn
    by_cases h0 : n = 0
    · simp [digitsAuxF, h0]
    · have hpos : 0 < n := Nat.pos_of_ne_zero h0
      have hdiv : n / b ≤ f := by
        have : n / b < n := Nat.div_lt_self hpos hb
        omega
      rw [digitsAuxF, if_neg h0, ih _ hdiv, ← Nat.digits_def' hb hpos]

lemma digitsF_eq_digits (b : Nat) (hb : 1 < b) (n : Nat) :
    digitsF b n = Nat.digits b n :=
  digitsAuxF_eq_digits b hb n n le_rfl

/-- Decimal representation of `n` as ASCII character codes (Go
`strconv.FormatInt(n, 10)` / `%d` for non-negative values). -/
def decRepr (n : Nat) : List Nat :=
  if n = 0 then [0x30] else (digitsF 10 n).reverse.map (fun d => 0x30 + d)

/-- Octal representation of `n` as ASCII character codes, no padding
(Go `strconv.FormatInt(n, 8)` for non-negative values). -/
def octRepr (n : Nat) : List Nat :=
  if n = 0 then [0x30] else (digitsF 8 n).reverse.map (fun d => 0x30 + d)

/-- Go `archive/tar` `formatter.formatOctal` followed by
`formatter.formatString`: the octal digits of `n`, left-padded with ASCII
zeros to width `w - 1`, followed by a terminating NUL byte. -/
def formatOctal (n w : Nat) : List Nat :=
  let s := octRepr n
  List.replicate (w - 1 - s.length) 0x30 ++ s ++ [0]

/-- Byte is a NUL or an ASCII space: the bytes trimmed by Go `archive/tar`
`parser.parseOctal` before converting. -/
def isTarTrim (b : Nat) : Bool :=
  b == 0 || b == 0x20

/-- Byte is an ASCII octal digit. -/
def isOctDigit (b : Nat) : Bool :=
  0x30 ≤ b && b ≤ 0x37

/-- Trim leading and trailing NUL and space bytes
(Go `bytes.Trim(b, " \x00")`). -/
def trimTar (bs : List Nat) : List Nat :=
  (((bs.dropWhile isTarTrim).reverse.dropWhile isTarTrim)).reverse

/-- Go `archive/tar` `parser.parseOctal`: trim NULs and spaces, cut at an
interior NUL (`parser.parseString`), then parse base 8
(`strconv.ParseUint(_, 8, 64)`); `none` models the `ErrHeader` outcome on
non-octal content.  An all-padding field parses as zero. -/
def parseOctal (bs : List Nat) : Option Nat :=
  let t := trimTar bs
  if t.isEmpty then some 0
  else
    let t2 := t.takeWhile (fun b => b ≠ 0)
    if t2 ≠ [] ∧ t2.all isOctDigit then
      some (t2.foldl (fun a d => a * 8 + (d - 0x30)) 0)
    else none

lemma octRepr_ne_nil (n : Nat) : octRepr n ≠ [] := by
  unfold octRepr
  by_cases h : n = 0
  · simp [h]
  · simp only [if_neg h]
    intro hcon
    have : Nat.digits 8 n = [] := by
      have := congrArg List.length hcon
      simp [digitsF_eq_digits 8 (by norm_num)] at this
      simpa using this
    rw [Nat.digits_eq_nil_iff_eq_zero] at this
    exact h this

lemma octRepr_all_digits (n : Nat) : ∀ b ∈ octRepr n, isOctDigit b = true := by
  intro b hb
  unfold octRepr at hb
  by_cases h : n = 0
  · simp [h] at hb
    simp [hb, isOctDigit]
  · simp only [if_neg h, List.mem_map, List.mem_reverse] at hb
    obtain ⟨d, hd, rfl⟩ := hb
    rw [digitsF_eq_digits 8 (by norm_num)] at hd
    have : d < 8 := Nat.digits_lt_base (by norm_num) hd
    simp [isOctDigit]
    omega

lemma octRepr_length_le {n k : Nat} (hk : 0 < k) (h : n < 8 ^ k) :
    (octRepr n).length ≤ k := by
  unfold octRepr
  by_cases h0 : n = 0
  · simpa [h0] using hk
  · simp only [if_neg h0, List.length_map, List.length_reverse]
    rw [digitsF_eq_digits 8 (by norm_num)]
    rw [Nat.digits_len 8 n (by norm_num) h0]
    have hlog : Nat.log 8 n < k := Nat.log_lt_of_lt_pow h0 h
    omega

lemma formatOctal_length {n w : Nat} (h : (octRepr n).length ≤ w - 1) :
    (formatOctal n w).length = w := by
  unfold formatOctal
  simp only [List.length_append, List.length_replicate, List.length_cons,
    List.length_nil]
  have h1 : 1 ≤ w := by
    have := octRepr_ne_nil n
    have : 0 < (octRepr n).length := List.length_pos.mpr this
    omega
  omega

lemma formatOctal_all_le (n w : Nat) : ∀ b ∈ formatOctal n w, b < 256 := by
  intro b hb
  have hb' : b = 0x30 ∨ b ∈ octRepr n ∨ b = 0 := by
    simp only [formatOctal, List.mem_append, List.mem_replicate,
      List.mem_singleton] at hb
    tauto
  rcases hb' with rfl | h | rfl
  · norm_num
  · have := octRepr_all_digits n b h
    simp [isOctDigit] at this
    omega
  · norm_num

lemma dropWhile_eq_self_of_all {α : Type} {p : α → Bool} {l : List α}
    (h : ∀ b ∈ l, p b = false) : l.dropWhile p = l := by
  cases l with
  | nil => rfl
  | cons a t => simp [List.dropWhile_cons, h a (by simp)]

lemma takeWhile_eq_self_of_all {α : Type} {p : α → Bool} {l : List α}
    (h : ∀ b ∈ l, p b = true) : l.takeWhile p = l := by
  induction l with
  | nil => rfl
  | cons a t ih =>
    have ha := h a (by simp)
    have ht := ih (fun b hb => h b (by simp [hb]))
    simp [List.takeWhile_cons, ha, ht]

lemma isTarTrim_of_digit {d : Nat} (h : isOctDigit d = true) :
    isTarTrim d = false := by
  simp [isOctDigit] at h
  simp [isTarTrim]
  omega

lemma foldl_replicate_zero (k : Nat) :
    List.foldl (fun a d => a * 8 + (d - 0x30)) 0 (List.replicate k 0x30) = 0 := by
  induction k with
  | zero => rfl
  | succ k ih => simpa [List.replicate_succ] using ih

lemma foldl_map_shift (l : List Nat) (a : Nat) :
    List.foldl (fun x d => x * 8 + (d - 0x30)) a (l.map (fun d => 0x30 + d)) =
      List.foldl (fun x d => x * 8 + d) a l := by
  induction l generalizing a with
  | nil => rfl
  | cons d t ih => simp [ih]

lemma foldl_reverse_ofDigits (l : List Nat) (a : Nat) :
    List.foldl (fun x d => x * 8 + d) a l.reverse =
      a * 8 ^ l.length + Nat.ofDigits 8 l := by
  induction l generalizing a with
  | nil => simp [Nat.ofDigits_nil]
  | cons d t ih =>
    rw [List.reverse_cons, List.foldl_append, ih]
    simp only [List.foldl_cons, List.foldl_nil, Nat.ofDigits_cons,
      List.length_cons, pow_succ]
    ring

lemma foldl_octRepr (n : Nat) :
    List.foldl (fun a d => a * 8 + (d - 0x30)) 0 (octRepr n) = n := by
  unfold octRepr
  by_cases h : n = 0
  · simp [h]
  · rw [if_neg h, foldl_map_shift, digitsF_eq_digits 8 (by norm_num),
      foldl_reverse_ofDigits]
    simp [Nat.ofDigits_digits]

lemma dropWhile_append_of_all {α : Type} {p : α → Bool} {A B : List α}
    (h : ∀ a ∈ A, p a = true) : (A ++ B).dropWhile p = B.dropWhile p := by
  induction A with
  | nil => rfl
  | cons a t ih =>
    have ha := h a (by simp)
    have ht := ih (fun b hb => h b (by simp [hb]))
    simp [List.dropWhile_cons, ha, ht]

/-- Round trip: the reader's octal parser recovers the number written by the
writer's octal formatter, also when the field carries further padding bytes
(NULs or spaces) after the formatted value. -/
lemma parseOctal_formatOctal_pad (n w : Nat) (T : List Nat)
    (hT : ∀ b ∈ T, isTarTrim b = true) :
    parseOctal (formatOctal n w ++ T) = some n := by
  have hD : ∀ b ∈ List.replicate (w - 1 - (octRepr n).length) 0x30 ++ octRepr n,
      isOctDigit b = true := by
    intro b hb
    rcases List.mem_append.mp hb with hb | hb
    · rcases List.mem_replicate.mp hb with ⟨-, rfl⟩
      simp [isOctDigit]
    · exact octRepr_all_digits n b hb
  set D := List.replicate (w - 1 - (octRepr n).length) 0x30 ++ octRepr n with hDdef
  have hDne : D ≠ [] := by
    intro hcon
    have := octRepr_ne_nil n
    rcases List.append_eq_nil.mp hcon with ⟨-, h2⟩
    exact this h2
  have hshape : formatOctal n w ++ T = D ++ ([0] ++ T) := by
    simp [formatOctal, hDdef, List.append_assoc]
  have htrim : trimTar (D ++ ([0] ++ T)) = D := by
    unfold trimTar
    have hfront : (D ++ ([0] ++ T)).dropWhile isTarTrim = D ++ ([0] ++ T) := by
      cases hDD : D with
      | nil => exact absurd hDD hDne
      | cons a t =>
        rw [List.cons_append]
        have : isTarTrim a = false :=
          isTarTrim_of_digit (hD a (by rw [hDD]; simp))
        simp [List.dropWhile_cons, this]
    rw [hfront, List.reverse_append]
    have hback : (([0] ++ T).reverse ++ D.reverse).dropWhile isTarTrim =
        D.reverse.dropWhile isTarTrim := by
      refine dropWhile_append_of_all (fun a ha => ?_)
      rw [List.mem_reverse] at ha
      rcases List.mem_append.mp ha with ha | ha
      · rcases List.mem_singleton.mp ha with rfl
        rfl
      · exact hT a ha
    rw [hback]
    rw [dropWhile_eq_self_of_all (fun b hb =>
      isTarTrim_of_digit (hD b (List.mem_reverse.mp hb)))]
    exact List.reverse_reverse D
  have hfold : List.foldl (fun a d => a * 8 + (d - 0x30)) 0 D = n := by
    rw [hDdef, List.foldl_append, foldl_replicate_zero, foldl_octRepr]
  rw [hshape]
  unfold parseOctal
  rw [htrim]
  have hDempty : D.isEmpty = false := by
    cases hDD : D with
    | nil => exact absurd hDD hDne
    | cons a t => rfl
  have htake : D.takeWhile (fun b => decide (b ≠ 0)) = D := by
    refine takeWhile_eq_self_of_all (fun b hb => ?_)
    have := hD b hb
    simp [isOctDigit] at this
    simp
    omega
  simp only [hDempty, Bool.false_eq_true, if_false, htake]
  rw [if_pos ⟨hDne, List.all_eq_true.mpr (fun b hb => hD b hb)⟩, hfold]

lemma parseOctal_formatOctal (n w : Nat) :
    parseOctal (formatOctal n w) = some n := by
  have := parseOctal_formatOctal_pad n w [] (by simp)
  simpa using this

/-! ## The USTAR header block

Go `archive/tar.Writer.WriteHeader`, for the two headers written by the
program (regular files, names of at most 100 bytes, sizes fitting 11 octal
digits, zero `Uid`/`Gid`/`ModTime`/`Uname`/`Gname`/`Devmajor`/`Devminor`,
no link name), chooses the USTAR format and emits one 512-byte block laid
out by `Writer.templateV7Plus` plus `block.SetFormat(FormatUSTAR)`:
name (100 bytes, NUL-padded), mode/uid/gid (8-byte octal fields),
size/mtime (12-byte octal fields), checksum (8 bytes: 6 octal digits, NUL,
space), typeflag (1 byte), linkname (100 bytes), magic `"ustar\x00"`,
version `"00"`, uname/gname (32 bytes each), devmajor/devminor (8-byte
octal fields), a 155-byte name-split field and 12 padding bytes.
A zero `ModTime` is formatted as Unix time 0, and `WriteHeader` rewrites
the zero typeflag (`TypeRegA`) to `TypeReg` (`'0'`) for names not ending
in `/`.  The checksum is the byte sum of the block with the checksum field
itself read as eight spaces (`block.ComputeChecksum`). -/

/-- The 100-byte NUL-padded name field (`formatter.formatString`). -/
def nameField (name : List Nat) : List Nat :=
  name ++ List.replicate (100 - name.length) 0

/-- Magic `"ustar\x00"` plus version `"00"` (offsets 257..264). -/
def ustarMagicVersion : List Nat :=
  [0x75, 0x73, 0x74, 0x61, 0x72, 0x00, 0x30, 0x30]

/-- Bytes 0..147 of the header: name, mode, uid, gid, size, mtime. -/
def tarHeadPre (name : List Nat) (mode size : Nat) : List Nat :=
  nameField name ++ formatOctal mode 8 ++ formatOctal 0 8 ++
    formatOctal 0 8 ++ formatOctal size 12 ++ formatOctal 0 12

/-- Bytes 156..511 of the header: typeflag, linkname, magic, version, uname,
gname, devmajor, devminor, the 155-byte name-split field, padding. -/
def tarHeadSuf (typeflag : Nat) : List Nat :=
  [typeflag] ++ List.replicate 100 0 ++ ustarMagicVersion ++
    List.replicate 32 0 ++ List.replicate 32 0 ++ formatOctal 0 8 ++
    formatOctal 0 8 ++ List.replicate 155 0 ++ List.replicate 12 0

/-- The header block with an explicit checksum field (bytes 148..155). -/
def tarHeaderWithChk (name : List Nat) (mode size typeflag : Nat)
    (chkField : List Nat) : List Nat :=
  tarHeadPre name mode size ++ chkField ++ tarHeadSuf typeflag

/-- `block.ComputeChecksum` (unsigned): byte sum of the block with the
checksum field read as eight spaces. -/
def tarChecksum (name : List Nat) (mode size typeflag : Nat) : Nat :=
  (tarHeaderWithChk name mode size typeflag (List.replicate 8 0x20)).sum

/-- The finished 512-byte header block: `block.SetFormat` stores the
checksum as six octal digits, a NUL and a space. -/
def tarHeaderBlock (name : List Nat) (mode size typeflag : Nat) : List Nat :=
  tarHeaderWithChk name mode size typeflag
    (formatOctal (tarChecksum name mode size typeflag) 7 ++ [0x20])

/-- Padding to the next 512-byte block boundary
(Go `archive/tar` `blockPadding`). -/
def tarPadLen (n : Nat) : Nat :=
  (512 - n % 512) % 512

/-- One archive member as emitted by `WriteHeader` + `Write` (+ the padding
flushed before the next header or at `Close`): header block, content,
zero padding. -/
def tarWriteEntry (name : List Nat) (mode : Nat) (content : List Nat) :
    List Nat :=
  tarHeaderBlock name mode content.length 0x30 ++ content ++
    List.replicate (tarPadLen content.length) 0

/-- `len` bytes of `bs` starting at offset `off`. -/
def readField (bs : List Nat) (off len : Nat) : List Nat :=
  (bs.drop off).take len

/-- The reader's recomputation of the block checksum: the block's byte sum
with bytes 148..155 read as spaces. -/
def computeChecksum (blk : List Nat) : Nat :=
  (blk.take 148).sum + 8 * 0x20 + (blk.drop 156).sum

/-- One extracted archive member: declared name, mode and size from the
header, and the content bytes read according to the declared size. -/
structure TarEntry where
  name : List Nat
  mode : Nat
  size : Nat
  content : List Nat
  deriving DecidableEq, Repr

/-- Header name as read by Go `archive/tar.Reader`: the NUL-terminated
name field, joined with the USTAR 155-byte name-split field when that is
non-empty. -/
def parseHeaderName (blk : List Nat) : List Nat :=
  let raw := (readField blk 0 100).takeWhile (fun b => b ≠ 0)
  let pfx := (readField blk 345 155).takeWhile (fun b => b ≠ 0)
  if pfx = [] then raw else pfx ++ [0x2F] ++ raw

/-- Header parsing in the style of `Reader.next`/`block.GetFormat`: the
stored checksum must parse and match the recomputed one, and the mode and
size fields must parse; `none` models `ErrHeader`. -/
def parseHeader (blk : List Nat) : Option (List Nat × Nat × Nat) :=
  (parseOctal (readField blk 148 8)).bind fun chk =>
    if chk = computeChecksum blk then
      (parseOctal (readField blk 100 8)).bind fun mode =>
        (parseOctal (readField blk 124 12)).map fun size =>
          (parseHeaderName blk, mode, size)
    else none

/-- Archive reading in the style of Go `archive/tar.Reader.Next`: read a
512-byte header block (two consecutive zero blocks terminate the archive),
read the declared number of content bytes, skip the padding, repeat.
`none` models any reader error (`ErrHeader`, unexpected end of input).
The fuel argument only forces termination; `bs.length` is always enough. -/
def readEntries : Nat → List Nat → Option (List TarEntry)
  | 0, _ => none
  | fuel + 1, bs =>
    if bs.length < 512 then none
    else
      let blk := bs.take 512
      if blk.all (fun b => b == 0) then
        if (bs.drop 512).length < 512 then none
        else if ((bs.drop 512).take 512).all (fun b => b == 0) then some []
        else none
      else
        match parseHeader blk with
        | none => none
        | some (name, mode, size) =>
          let rest := bs.drop 512
          if rest.length < size + tarPadLen size then none
          else
            (readEntries fuel (rest.drop (size + tarPadLen size))).map
              (fun es => ⟨name, mode, size, rest.take size⟩ :: es)

/-- Read a complete archive buffer. -/
def readTar (bs : List Nat) : Option (List TarEntry) :=
  readEntries bs.length bs

lemma nameField_length {name : List Nat} (h : name.length ≤ 100) :
    (nameField name).length = 100 := by
  simp [nameField]
  omega

lemma formatOctal_zero_length {w : Nat} (hw : 2 ≤ w) :
    (formatOctal 0 w).length = w := by
  apply formatOctal_length
  simp [octRepr]
  omega

lemma formatOctal_mode_length {mode : Nat} (h : mode < 8 ^ 7) :
    (formatOctal mode 8).length = 8 :=
  formatOctal_length (by have := octRepr_length_le (by norm_num) h; omega)

lemma formatOctal_size_length {size : Nat} (h : size < 8 ^ 11) :
    (formatOctal size 12).length = 12 :=
  formatOctal_length (by have := octRepr_length_le (by norm_num) h; omega)

lemma tarHeadPre_length {name : List Nat} {mode size : Nat}
    (hname : name.length ≤ 100) (hmode : mode < 8 ^ 7) (hsize : size < 8 ^ 11) :
    (tarHeadPre name mode size).length = 148 := by
  simp only [tarHeadPre, List.length_append, nameField_length hname,
    formatOctal_mode_length hmode, formatOctal_size_length hsize,
    formatOctal_zero_length (by norm_num : 2 ≤ 8),
    formatOctal_zero_length (by norm_num : 2 ≤ 12)]

lemma tarHeadSuf_length (tf : Nat) : (tarHeadSuf tf).length = 356 := by
  simp only [tarHeadSuf, List.length_append, List.length_replicate,
    List.length_singleton, formatOctal_zero_length (by norm_num : 2 ≤ 8)]
  decide

lemma tarHeadPre_all_lt {name : List Nat} {mode size : Nat}
    (hname : ∀ b ∈ name, b < 256) :
    ∀ b ∈ tarHeadPre name mode size, b < 256 := by
  intro b hb
  rw [tarHeadPre, nameField] at hb
  simp only [List.append_assoc] at hb
  rcases List.mem_append.mp hb with h | h
  · exact hname b h
  rcases List.mem_append.mp h with h | h
  · rcases List.mem_replicate.mp h with ⟨-, rfl⟩
    norm_num
  rcases List.mem_append.mp h with h | h
  · exact formatOctal_all_le _ _ b h
  rcases List.mem_append.mp h with h | h
  · exact formatOctal_all_le _ _ b h
  rcases List.mem_append.mp h with h | h
  · exact formatOctal_all_le _ _ b h
  rcases List.mem_append.mp h with h | h
  · exact formatOctal_all_le _ _ b h
  · exact formatOctal_all_le _ _ b h

set_option maxRecDepth 40000 in
lemma tarHeadSuf_all_lt {tf : Nat} (htf : tf < 256) :
    ∀ b ∈ tarHeadSuf tf, b < 256 := by
  have hC : ∀ x ∈ List.replicate 100 0 ++ (ustarMagicVersion ++
      (List.replicate 32 0 ++ (List.replicate 32 0 ++ (formatOctal 0 8 ++
      (formatOctal 0 8 ++ (List.replicate 155 0 ++ List.replicate 12 0)))))),
      x < 256 := by decide
  intro b hb
  rw [tarHeadSuf] at hb
  simp only [List.append_assoc] at hb
  rcases List.mem_append.mp hb with h | h
  · rcases List.mem_singleton.mp h with rfl
    exact htf
  · exact hC b h

lemma sum_le_of_all_lt {l : List Nat} (h : ∀ b ∈ l, b < 256) :
    l.sum ≤ 255 * l.length := by
  induction l with
  | nil => simp
  | cons a t ih =>
    have ha := h a (by simp)
    have ht := ih (fun b hb => h b (by simp [hb]))
    simp only [List.sum_cons, List.length_cons]
    have : 255 * (t.length + 1) = 255 * t.length + 255 := by ring
    omega

lemma tarChecksum_lt {name : List Nat} {mode size tf : Nat}
    (hname100 : name.length ≤ 100) (hnb : ∀ b ∈ name, b < 256)
    (hmode : mode < 8 ^ 7) (hsize : size < 8 ^ 11) (htf : tf < 256) :
    tarChecksum name mode size tf < 8 ^ 6 := by
  unfold tarChecksum tarHeaderWithChk
  rw [List.sum_append, List.sum_append]
  have h1 := sum_le_of_all_lt (@tarHeadPre_all_lt name mode size hnb)
  rw [tarHeadPre_length hname100 hmode hsize] at h1
  have h2 := sum_le_of_all_lt (tarHeadSuf_all_lt htf)
  rw [tarHeadSuf_length tf] at h2
  have h3 : (List.replicate 8 0x20).sum = 256 := by decide
  have h4 : (8 : Nat) ^ 6 = 262144 := by norm_num
  omega

lemma readField_append {P M S : List Nat} {off len : Nat}
    (hP : P.length = off) (hM : M.length = len) :
    readField (P ++ M ++ S) off len = M := by
  unfold readField
  rw [List.append_assoc, List.drop_left' hP, List.take_left' hM]

lemma takeWhile_append_replicate (name : List Nat) (k : Nat)
    (h0 : ∀ b ∈ name, b ≠ 0) :
    (name ++ List.replicate k 0).takeWhile (fun b => decide (b ≠ 0)) = name := by
  induction name with
  | nil =>
    cases k with
    | zero => rfl
    | succ k =>
      rw [List.nil_append, List.replicate_succ, List.takeWhile_cons,
        if_neg (by simp)]
  | cons a t ih =>
    have ha : a ≠ 0 := h0 a (by simp)
    have ht := ih (fun b hb => h0 b (by simp [hb]))
    rw [List.cons_append, List.takeWhile_cons, if_pos (by simpa using ha), ht]

lemma takeWhile_ne_zero_replicate (k : Nat) :
    (List.replicate k 0).takeWhile (fun b => decide (b ≠ 0)) = [] := by
  cases k with
  | zero => rfl
  | succ k => rw [List.replicate_succ, List.takeWhile_cons, if_neg (by simp)]

lemma ustarMagicVersion_length : ustarMagicVersion.length = 8 := by decide

set_option maxRecDepth 40000 in
/-- Round trip at the header level: the reader recovers exactly the name,
mode and size stored by the writer, for any regular-file header the
program can produce. -/
lemma parseHeader_tarHeaderBlock (name : List Nat) (mode size tf : Nat)
    (hname100 : name.length ≤ 100) (hnb : ∀ b ∈ name, b < 256)
    (hn0 : ∀ b ∈ name, b ≠ 0)
    (hmode : mode < 8 ^ 7) (hsize : size < 8 ^ 11) (htf : tf < 256) :
    parseHeader (tarHeaderBlock name mode size tf) = some (name, mode, size) := by
  have hPreLen : (tarHeadPre name mode size).length = 148 :=
    tarHeadPre_length hname100 hmode hsize
  have hSufLen : (tarHeadSuf tf).length = 356 := tarHeadSuf_length tf
  have hchklt : tarChecksum name mode size tf < 8 ^ 6 :=
    tarChecksum_lt hname100 hnb hmode hsize htf
  have hchkdig : (octRepr (tarChecksum name mode size tf)).length ≤ 6 :=
    octRepr_length_le (by norm_num) hchklt
  have hchkFLen :
      (formatOctal (tarChecksum name mode size tf) 7 ++ [0x20]).length = 8 := by
    rw [List.length_append,
      formatOctal_length (show (octRepr (tarChecksum name mode size tf)).length ≤ 7 - 1 by omega)]
    decide
  have hB1 : tarHeaderBlock name mode size tf =
      tarHeadPre name mode size ++
        (formatOctal (tarChecksum name mode size tf) 7 ++ [0x20]) ++
        tarHeadSuf tf := rfl
  -- the stored checksum field
  have hfchk : readField (tarHeaderBlock name mode size tf) 148 8 =
      formatOctal (tarChecksum name mode size tf) 7 ++ [0x20] := by
    rw [hB1]
    exact readField_append hPreLen hchkFLen
  -- the recomputed checksum
  have htake148 : (tarHeaderBlock name mode size tf).take 148 =
      tarHeadPre name mode size := by
    rw [hB1, List.append_assoc]
    exact List.take_left' hPreLen
  have hdrop156 : (tarHeaderBlock name mode size tf).drop 156 =
      tarHeadSuf tf := by
    rw [hB1]
    exact List.drop_left' (by rw [List.length_append, hPreLen, hchkFLen])
  have hcc : computeChecksum (tarHeaderBlock name mode size tf) =
      tarChecksum name mode size tf := by
    unfold computeChecksum
    rw [htake148, hdrop156]
    unfold tarChecksum tarHeaderWithChk
    rw [List.sum_append, List.sum_append]
    have : (List.replicate 8 0x20).sum = 256 := by decide
    omega
  -- the mode field
  have hfmode : readField (tarHeaderBlock name mode size tf) 100 8 =
      formatOctal mode 8 := by
    have hshape : tarHeaderBlock name mode size tf =
        nameField name ++ formatOctal mode 8 ++
          (formatOctal 0 8 ++ (formatOctal 0 8 ++ (formatOctal size 12 ++
            (formatOctal 0 12 ++
              ((formatOctal (tarChecksum name mode size tf) 7 ++ [0x20]) ++
                tarHeadSuf tf))))) := by
      simp [tarHeaderBlock, tarHeaderWithChk, tarHeadPre, List.append_assoc]
    rw [hshape]
    exact readField_append (nameField_length hname100)
      (formatOctal_mode_length hmode)
  -- the size field
  have hfsize : readField (tarHeaderBlock name mode size tf) 124 12 =
      formatOctal size 12 := by
    have hshape : tarHeaderBlock name mode size tf =
        (nameField name ++ formatOctal mode 8 ++ formatOctal 0 8 ++
          formatOctal 0 8) ++ formatOctal size 12 ++
          (formatOctal 0 12 ++
            ((formatOctal (tarChecksum name mode size tf) 7 ++ [0x20]) ++
              tarHeadSuf tf)) := by
      simp [tarHeaderBlock, tarHeaderWithChk, tarHeadPre, List.append_assoc]
    rw [hshape]
    refine readField_append ?_ (formatOctal_size_length hsize)
    simp only [List.length_append, nameField_length hname100,
      formatOctal_mode_length hmode,
      formatOctal_zero_length (by norm_num : 2 ≤ 8)]
  -- the raw name field
  have hfname : readField (tarHeaderBlock name mode size tf) 0 100 =
      nameField name := by
    unfold readField
    rw [List.drop_zero]
    have hshape : tarHeaderBlock name mode size tf =
        nameField name ++ (formatOctal mode 8 ++ (formatOctal 0 8 ++
          (formatOctal 0 8 ++ (formatOctal size 12 ++ (formatOctal 0 12 ++
            ((formatOctal (tarChecksum name mode size tf) 7 ++ [0x20]) ++
              tarHeadSuf tf)))))) := by
      simp [tarHeaderBlock, tarHeaderWithChk, tarHeadPre, List.append_assoc]
    rw [hshape]
    exact List.take_left' (nameField_length hname100)
  -- the 155-byte name-split field is all zeros
  have hfpfx : readField (tarHeaderBlock name mode size tf) 345 155 =
      List.replicate 155 0 := by
    have hshape : tarHeaderBlock name mode size tf =
        (tarHeadPre name mode size ++
          (formatOctal (tarChecksum name mode size tf) 7 ++ [0x20]) ++
          [tf] ++ List.replicate 100 0 ++ ustarMagicVersion ++
          List.replicate 32 0 ++ List.replicate 32 0 ++ formatOctal 0 8 ++
          formatOctal 0 8) ++ List.replicate 155 0 ++ List.replicate 12 0 := by
      simp [tarHeaderBlock, tarHeaderWithChk, tarHeadSuf, List.append_assoc]
    rw [hshape]
    refine readField_append ?_ (by simp)
    simp only [List.length_append, hPreLen, hchkFLen,
      List.length_singleton, List.length_replicate, ustarMagicVersion_length,
      formatOctal_zero_length (by norm_num : 2 ≤ 8)]
  -- the parsed name
  have hpn : parseHeaderName (tarHeaderBlock name mode size tf) = name := by
    simp only [parseHeaderName, hfname, hfpfx,
      takeWhile_ne_zero_replicate 155, if_pos rfl]
    rw [show nameField name = name ++ List.replicate (100 - name.length) 0
        from rfl]
    exact takeWhile_append_replicate name _ hn0
  unfold parseHeader
  rw [hfchk, parseOctal_formatOctal_pad _ 7 [0x20] (by decide),
    Option.some_bind, if_pos hcc.symm, hfmode, parseOctal_formatOctal,
    Option.some_bind, hfsize, parseOctal_formatOctal, Option.map_some',
    hpn]

lemma tarHeaderBlock_length {name : List Nat} {mode size tf : Nat}
    (hname100 : name.length ≤ 100) (hnb : ∀ b ∈ name, b < 256)
    (hmode : mode < 8 ^ 7) (hsize : size < 8 ^ 11) (htf : tf < 256) :
    (tarHeaderBlock name mode size tf).length = 512 := by
  have hchklt := tarChecksum_lt hname100 hnb hmode hsize htf
  have hchkdig := @octRepr_length_le _ 6 (by norm_num) hchklt
  rw [show tarHeaderBlock name mode size tf =
      tarHeadPre name mode size ++
        (formatOctal (tarChecksum name mode size tf) 7 ++ [0x20]) ++
        tarHeadSuf tf from rfl]
  rw [List.length_append, List.length_append, List.length_append,
    tarHeadPre_length hname100 hmode hsize, tarHeadSuf_length,
    formatOctal_length
      (show (octRepr (tarChecksum name mode size tf)).length ≤ 7 - 1 by omega)]
  decide

lemma tarHeaderBlock_not_zero {name : List Nat} {mode size tf : Nat}
    (hne : name ≠ []) (hn0 : ∀ b ∈ name, b ≠ 0) :
    (tarHeaderBlock name mode size tf).all (fun b => b == 0) = false := by
  cases hN : name with
  | nil => exact absurd hN hne
  | cons a t =>
    refine List.all_eq_false.mpr ⟨a, ?_, ?_⟩
    · simp [tarHeaderBlock, tarHeaderWithChk, tarHeadPre, nameField, hN]
    · have ha : a ≠ 0 := hn0 a (by rw [hN]; simp)
      simpa using ha

/-- One reader step over one written member: the member is decoded exactly
and reading continues on the remaining bytes. -/
lemma readEntries_entry (fuel : Nat) {name : List Nat} {mode : Nat}
    (content rest : List Nat)
    (hne : name ≠ []) (hname100 : name.length ≤ 100)
    (hnb : ∀ b ∈ name, b < 256) (hn0 : ∀ b ∈ name, b ≠ 0)
    (hmode : mode < 8 ^ 7) (hsize : content.length < 8 ^ 11) :
    readEntries (fuel + 1) (tarWriteEntry name mode content ++ rest) =
      (readEntries fuel rest).map
        (fun es => ⟨name, mode, content.length, content⟩ :: es) := by
  have htf : (0x30 : Nat) < 256 := by norm_num
  have hHB : (tarHeaderBlock name mode content.length 0x30).length = 512 :=
    tarHeaderBlock_length hname100 hnb hmode hsize htf
  have hWshape : tarWriteEntry name mode content ++ rest =
      tarHeaderBlock name mode content.length 0x30 ++
        (content ++ (List.replicate (tarPadLen content.length) 0 ++ rest)) := by
    simp [tarWriteEntry, List.append_assoc]
  have hlen512 : ¬ ((tarWriteEntry name mode content ++ rest).length < 512) := by
    rw [hWshape, List.length_append, hHB]
    omega
  have htake : (tarWriteEntry name mode content ++ rest).take 512 =
      tarHeaderBlock name mode content.length 0x30 := by
    rw [hWshape]
    exact List.take_left' hHB
  have hdrop : (tarWriteEntry name mode content ++ rest).drop 512 =
      content ++ (List.replicate (tarPadLen content.length) 0 ++ rest) := by
    rw [hWshape]
    exact List.drop_left' hHB
  have hzero : (tarHeaderBlock name mode content.length 0x30).all
      (fun b => b == 0) = false :=
    tarHeaderBlock_not_zero hne hn0
  have hph : parseHeader (tarHeaderBlock name mode content.length 0x30) =
      some (name, mode, content.length) :=
    parseHeader_tarHeaderBlock name mode content.length 0x30 hname100 hnb hn0
      hmode hsize htf
  have hlen2 : ¬ ((content ++ (List.replicate (tarPadLen content.length) 0 ++
      rest)).length < content.length + tarPadLen content.length) := by
    simp only [List.length_append, List.length_replicate]
    omega
  have htake2 : (content ++ (List.replicate (tarPadLen content.length) 0 ++
      rest)).take content.length = content :=
    List.take_left' rfl
  have hdrop2 : (content ++ (List.replicate (tarPadLen content.length) 0 ++
      rest)).drop (content.length + tarPadLen content.length) = rest := by
    rw [← List.append_assoc]
    exact List.drop_left' (by simp [List.length_append])
  simp only [readEntries, if_neg hlen512, htake, hdrop, hzero,
    Bool.false_eq_true, if_false, hph, if_neg hlen2, htake2, hdrop2]

/-- The reader stops with an empty remainder at the two zero blocks written
by `Writer.Close`. -/
lemma readEntries_zeros (fuel : Nat) :
    readEntries (fuel + 1) (List.replicate 1024 0) = some [] := by
  have hmin : (512 : Nat) ⊓ 1024 = 512 := by norm_num
  have h1 : ¬ ((List.replicate 1024 (0 : Nat)).length < 512) := by
    rw [List.length_replicate]
    omega
  have htake : (List.replicate 1024 (0 : Nat)).take 512 =
      List.replicate 512 0 := by
    rw [List.take_replicate, hmin]
  have hdrop : (List.replicate 1024 (0 : Nat)).drop 512 =
      List.replicate 512 0 := by
    rw [List.drop_replicate]
  have hz : (List.replicate 512 (0 : Nat)).all (fun b => b == 0) = true := by
    rw [List.all_replicate]
    norm_num
  have h2 : ¬ ((List.replicate 512 (0 : Nat)).length < 512) := by
    rw [List.length_replicate]
    omega
  have htake2 : (List.replicate 512 (0 : Nat)).take 512 =
      List.replicate 512 0 := by
    rw [List.take_replicate]
    norm_num
  simp only [readEntries, if_neg h1, htake, hdrop, hz, if_true, h2, htake2,
    if_false]

/-! ## The program's archive

`runPgDumpToTar` (main.go:248-262) writes the `dump.sql` member: header
`{Name: "dump.sql", Mode: 0777, Size: len(dump), Typeflag: TypeReg}`
followed by the captured dump bytes.  `createDockerImage` (main.go:143-155)
then writes the `Dockerfile` member: header `{Name: "Dockerfile",
Size: len(dockerfile), Mode: 0600}` followed by the embedded Dockerfile
bytes, and calls `tw.Close()`, which flushes the padding and appends two
zero blocks. -/

/-- The embedded `Dockerfile` (`//go:embed Dockerfile`), transcribed
byte-for-byte from the repository. -/
def dockerfileText : String :=
  "FROM postgres as builder\n\nARG DB_NAME\nENV DB_NAME=${DB_NAME}\nENV PGDATA=/data\n\nUSER root\nRUN mkdir -p ${PGDATA} && \\\n    chown -R postgres:postgres ${PGDATA} && \\\n    chmod -R 700 ${PGDATA}\n\nUSER postgres\n\nCOPY dump.sql /tmp/dump.sql\n\nRUN initdb --pgdata=${PGDATA} && \\\n    pg_ctl -D ${PGDATA} -o \"-c listen_addresses=\x27\x27\" -w start && \\\n    psql -U postgres -c \"CREATE DATABASE ${DB_NAME};\" && \\\n    psql -U postgres -d ${DB_NAME} -f /tmp/dump.sql && \\\n    psql -U postgres -c \"ALTER USER postgres WITH PASSWORD \x27postgres\x27;\" && \\\n    pg_ctl -D ${PGDATA} -m fast -w stop\n\nFROM postgres\n\nENV PGDATA=/data\n\nUSER root\nRUN mkdir -p ${PGDATA} && \\\n    chown -R postgres:postgres ${PGDATA} && \\\n    chmod -R 777 ${PGDATA}\n\nCOPY --from=builder ${PGDATA}/ ${PGDATA}/\n\nCOPY --from=builder /tmp/dump.sql dump.sql\n\nRUN echo \"listen_addresses = \x27*\x27\" >> ${PGDATA}/postgresql.conf\nRUN echo \"host all all 0.0.0.0/0 md5\" >> ${PGDATA}/pg_hba.conf\n\nEXPOSE 5432\n\nUSER postgres\n\nCMD [\"postgres\", \"-c\", \"config_file=/data/postgresql.conf\"]\n"

/-- The bytes of the embedded build recipe (Go `dockerfile []byte`). -/
def dockerfileBytes : List Nat :=
  asciiBytes dockerfileText

/-- The complete archive buffer produced for a captured dump: the
`dump.sql` member written by `runPgDumpToTar`, the `Dockerfile` member
written by `createDockerImage`, and the two zero blocks written by
`tw.Close()`. -/
def pgContainerArchive (dump : List Nat) : List Nat :=
  tarWriteEntry (asciiBytes "dump.sql") 0o777 dump ++
    tarWriteEntry (asciiBytes "Dockerfile") 0o600 dockerfileBytes ++
    List.replicate 1024 0

set_option maxRecDepth 200000 in
/-- C1: For every dump payload of byte length `N` (any `N` the tar size
field can hold) and the fixed embedded recipe, the finalized archive
contains exactly two entries: `dump.sql` with declared size `N` and
world-writable mode `0777`, and `Dockerfile` with declared size equal to
the recipe's literal byte length and owner-only mode `0600`; a standard
archive reader re-extracting the buffer recovers byte-identical dump and
recipe content, with every declared size equal to the written content
length. -/
theorem archive_two_entries_roundtrip (dump : List Nat)
    (hsize : dump.length < 8 ^ 11) :
    readTar (pgContainerArchive dump) =
      some [⟨asciiBytes "dump.sql", 0o777, dump.length, dump⟩,
        ⟨asciiBytes "Dockerfile", 0o600, dockerfileBytes.length,
          dockerfileBytes⟩] := by
  have hdl : dockerfileBytes.length < 8 ^ 11 := by
    rw [show dockerfileBytes.length = 1017 from rfl]
    norm_num
  have h1 : ∀ fuel, readEntries (fuel + 3) (pgContainerArchive dump) =
      some [⟨asciiBytes "dump.sql", 0o777, dump.length, dump⟩,
        ⟨asciiBytes "Dockerfile", 0o600, dockerfileBytes.length,
          dockerfileBytes⟩] := by
    intro fuel
    have hshape : pgContainerArchive dump =
        tarWriteEntry (asciiBytes "dump.sql") 0o777 dump ++
          (tarWriteEntry (asciiBytes "Dockerfile") 0o600 dockerfileBytes ++
            List.replicate 1024 0) := by
      simp [pgContainerArchive, List.append_assoc]
    rw [hshape]
    rw [show fuel + 3 = (fuel + 2) + 1 from rfl]
    rw [readEntries_entry (fuel + 2) dump _ (by decide) (by decide)
      (by decide) (by decide) (by decide) hsize]
    rw [show fuel + 2 = (fuel + 1) + 1 from rfl]
    rw [readEntries_entry (fuel + 1) dockerfileBytes _ (by decide) (by decide)
      (by decide) (by decide) (by decide) hdl]
    rw [readEntries_zeros fuel]
    rfl
  unfold readTar
  have hge : 3 ≤ (pgContainerArchive dump).length := by
    simp only [pgContainerArchive, List.length_append, List.length_replicate]
    omega
  obtain ⟨k, hk⟩ := Nat.exists_eq_add_of_le hge
  rw [hk, show 3 + k = k + 3 from by omega]
  exact h1 k

set_option maxRecDepth 200000 in
/-- Witness for C1 at the concrete dump `"-- dump --"` (10 bytes). -/
theorem archive_two_entries_roundtrip_witness :
    readTar (pgContainerArchive (asciiBytes "-- dump --")) =
      some [⟨asciiBytes "dump.sql", 0o777, (asciiBytes "-- dump --").length,
        asciiBytes "-- dump --"⟩,
        ⟨asciiBytes "Dockerfile", 0o600, dockerfileBytes.length,
          dockerfileBytes⟩] :=
  archive_two_entries_roundtrip (asciiBytes "-- dump --") (by decide)

/-! ## Connection-string parsing (`extractDatabaseName`, main.go:119-138)

The program calls `net/url.Parse` and then reads only `u.Path` and
`u.User` (through `Username()`).  `GoURL` keeps exactly those fields.
`urlParse` models `net/url.Parse` for URLs without an authority
component (no `//` after the scheme): the control-character check, the
`"*"` special case, `getScheme`, the query split, the
colon-in-first-segment check and `setPath`'s percent-unescaping are
modelled from the library's documented behaviour; a URL whose remainder
begins with `//` (an authority) is outside the modelled fragment and is
mapped to an error.  Characters stand for single bytes (exact for ASCII
input). -/

/-- The characters of a Lean string literal. -/
def chars (s : String) : List Char :=
  s.data

instance {ε α : Type} [DecidableEq ε] [DecidableEq α] :
    DecidableEq (Except ε α)
  | .error e, .error f => decidable_of_iff (e = f) (by simp)
  | .error _, .ok _ => isFalse (by simp)
  | .ok _, .error _ => isFalse (by simp)
  | .ok x, .ok y => decidable_of_iff (x = y) (by simp)

/-- Result of `net/url.Parse` restricted to the fields the program reads:
`URL.Path`, and `URL.User` as `none` (nil) or `some username`. -/
structure GoURL where
  path : List Char
  user : Option (List Char)
  deriving DecidableEq, Repr

/-- `net/url` `stringContainsCTLByte`. -/
def isCtlByte (c : Char) : Bool :=
  c.toNat < 0x20 || c.toNat == 0x7F

def isAlphaGo (c : Char) : Bool :=
  (0x61 ≤ c.toNat && c.toNat ≤ 0x7A) || (0x41 ≤ c.toNat && c.toNat ≤ 0x5A)

def isDigitGo (c : Char) : Bool :=
  0x30 ≤ c.toNat && c.toNat ≤ 0x39

/-- `strings.Cut` at the first occurrence of `sep`:
(before, after, found). -/
def cutChar (s : List Char) (sep : Char) : List Char × List Char × Bool :=
  match s with
  | [] => ([], [], false)
  | c :: rest =>
    if c = sep then ([], rest, true)
    else
      let r := cutChar rest sep
      (c :: r.1, r.2.1, r.2.2)

def startsWithChar (s : List Char) (c : Char) : Bool :=
  match s with
  | x :: _ => x = c
  | [] => false

def startsWith2Slash (s : List Char) : Bool :=
  match s with
  | a :: b :: _ => a = '/' && b = '/'
  | _ => false

def startsWith3Slash (s : List Char) : Bool :=
  match s with
  | a :: b :: c :: _ => a = '/' && b = '/' && c = '/'
  | _ => false

def hasLastQmark (s : List Char) : Bool :=
  match s.getLast? with
  | some c => c = '?'
  | none => false

/-- `net/url` `getScheme`, with the already-scanned scheme characters
accumulated in reverse in `pre`. -/
def getSchemeGo : List Char → List Char → Except (List Char) (List Char × List Char)
  | pre, [] => .ok ([], pre.reverse)
  | pre, c :: rest =>
    if isAlphaGo c then getSchemeGo (c :: pre) rest
    else if isDigitGo c || c = '+' || c = '-' || c = '.' then
      (if pre = [] then .ok ([], c :: rest) else getSchemeGo (c :: pre) rest)
    else if c = ':' then
      (if pre = [] then .error (chars "missing protocol scheme")
       else .ok (pre.reverse, rest))
    else .ok ([], pre.reverse ++ c :: rest)

def getScheme (s : List Char) : Except (List Char) (List Char × List Char) :=
  getSchemeGo [] s

def isHexChar (c : Char) : Bool :=
  (0x30 ≤ c.toNat && c.toNat ≤ 0x39) || (0x61 ≤ c.toNat && c.toNat ≤ 0x66) ||
    (0x41 ≤ c.toNat && c.toNat ≤ 0x46)

def hexVal (c : Char) : Nat :=
  if 0x30 ≤ c.toNat && c.toNat ≤ 0x39 then c.toNat - 0x30
  else if 0x61 ≤ c.toNat && c.toNat ≤ 0x66 then c.toNat - 0x61 + 10
  else c.toNat - 0x41 + 10

/-- `net/url` `unescape`: decode `%xx` triples, error
(`EscapeError`) when a `%` is not followed by two hex digits.  The `+`
rewriting applies only to query components, never to paths. -/
def unescapePercent : List Char → Option (List Char)
  | [] => some []
  | c :: rest =>
    if c = '%' then
      match rest with
      | c1 :: c2 :: rest2 =>
        if isHexChar c1 && isHexChar c2 then
          (unescapePercent rest2).map
            (fun r => Char.ofNat (16 * hexVal c1 + hexVal c2) :: r)
        else none
      | _ => none
    else (unescapePercent rest).map (fun r => c :: r)

/-- The tail of `net/url` `parse`: the authority check followed by
`setPath`.  An authority component (`//...`) is outside the modelled
fragment.  A scheme-less, authority-less remainder becomes the path,
percent-unescaped. -/
def urlSetPathStep (scheme rest : List Char) : Except (List Char) GoURL :=
  if (decide (scheme ≠ []) || !startsWith3Slash rest) && startsWith2Slash rest then
    .error (chars "URL authority parsing is outside the modelled fragment")
  else
    match unescapePercent rest with
    | none => .error (chars "invalid URL escape")
    | some p => .ok ⟨p, none⟩

/-- `net/url` `parse(rawURL, viaRequest := false)` over the modelled
fragment.  An opaque URL (`scheme:opaque-part`) has an empty `Path` and
nil `User`, which is what the program observes of it. -/
def urlParseInner (rawURL : List Char) : Except (List Char) GoURL :=
  if rawURL.any isCtlByte then
    .error (chars "net/url: invalid control character in URL")
  else if rawURL = ['*'] then .ok ⟨['*'], none⟩
  else
    match getScheme rawURL with
    | .error e => .error e
    | .ok (scheme, rest0) =>
      let rest1 :=
        if hasLastQmark rest0 && !(rest0.dropLast.contains '?') then
          rest0.dropLast
        else (cutChar rest0 '?').1
      if !startsWithChar rest1 '/' then
        if scheme ≠ [] then .ok ⟨[], none⟩
        else if ((cutChar rest1 '/').1).contains ':' then
          .error (chars "first path segment in URL cannot contain colon")
        else urlSetPathStep scheme rest1
      else urlSetPathStep scheme rest1

/-- `net/url.Parse`: split the fragment at the first `#`, parse the rest,
validate the fragment's escaping (`setFragment`). -/
def urlParse (rawURL : List Char) : Except (List Char) GoURL :=
  let c := cutChar rawURL '#'
  match urlParseInner c.1 with
  | .error e => .error e
  | .ok url =>
    if c.2.1 = [] then .ok url
    else
      match unescapePercent c.2.1 with
      | none => .error (chars "invalid URL escape")
      | some _ => .ok url

/-- `strings.TrimPrefix(s, "/")`: drop one leading slash if present. -/
def trimPfxSlash (s : List Char) : List Char :=
  if startsWithChar s '/' then s.tail else s

/-- The database-name derivation applied to a parsed URL: lines 125-137 of
`extractDatabaseName`.  The path with its leading slash stripped; if that
is empty and a Userinfo is present, the username; if still empty, the
validation error. -/
def extractDbNameFromURL (u : GoURL) : Except (List Char) (List Char) :=
  let dbName := trimPfxSlash u.path
  let dbName2 :=
    if dbName = [] then
      match u.user with
      | some usr => usr
      | none => dbName
    else dbName
  if dbName2 = [] then
    .error (chars "No database name or username found in the connection URL")
  else .ok dbName2

/-- `extractDatabaseName` (main.go:119-138): parse the connection URL,
wrap a parse failure, then derive the name from the parsed URL. -/
def extractDatabaseName (connectionURL : List Char) :
    Except (List Char) (List Char) :=
  match urlParse connectionURL with
  | .error e => .error (chars "Invalid Postgres connection URL: " ++ e)
  | .ok u => extractDbNameFromURL u

lemma contains_eq_false_of_all {s : List Char} {x : Char}
    (h : ∀ c ∈ s, c ≠ x) : s.contains x = false := by
  simp [List.contains_eq_any_beq]
  intro hc
  exact h x hc rfl

lemma cutChar_not_found {s : List Char} {sep : Char}
    (h : ∀ c ∈ s, c ≠ sep) : cutChar s sep = (s, [], false) := by
  induction s with
  | nil => rfl
  | cons c rest ih =>
    have hc : c ≠ sep := h c (by simp)
    have ht := ih (fun x hx => h x (by simp [hx]))
    simp [cutChar, hc, ht]

lemma getSchemeGo_no_colon :
    ∀ (rest pre : List Char), (∀ c ∈ rest, c ≠ ':') →
      getSchemeGo pre rest = .ok ([], pre.reverse ++ rest) := by
  intro rest
  induction rest with
  | nil =>
    intro pre h
    simp [getSchemeGo]
  | cons c rest ih =>
    intro pre h
    have hc : c ≠ ':' := h c (by simp)
    have ht := fun pre2 => ih pre2 (fun x hx => h x (by simp [hx]))
    by_cases ha : isAlphaGo c = true
    · rw [show getSchemeGo pre (c :: rest) = getSchemeGo (c :: pre) rest by
        simp [getSchemeGo, ha]]
      rw [ht (c :: pre)]
      simp
    · by_cases hd : (isDigitGo c || c = '+' || c = '-' || c = '.') = true
      · by_cases hp : pre = []
        · subst hp
          simp [getSchemeGo, ha, hd]
        · rw [show getSchemeGo pre (c :: rest) = getSchemeGo (c :: pre) rest by
            simp [getSchemeGo, ha, hd, hp]]
          rw [ht (c :: pre)]
          simp
      · rw [show getSchemeGo pre (c :: rest) =
            .ok ([], pre.reverse ++ c :: rest) by
          simp [getSchemeGo, ha, hd, hc]]

lemma unescapePercent_no_pct {s : List Char}
    (h : ∀ c ∈ s, c ≠ '%') : unescapePercent s = some s := by
  induction s with
  | nil => rfl
  | cons c rest ih =>
    have hc : c ≠ '%' := h c (by simp)
    have ht := ih (fun x hx => h x (by simp [hx]))
    unfold unescapePercent
    rw [if_neg hc, ht]
    rfl

lemma hasLastQmark_eq_false {s : List Char}
    (h : ∀ c ∈ s, c ≠ '?') : hasLastQmark s = false := by
  unfold hasLastQmark
  cases hq : s.getLast? with
  | none => rfl
  | some c =>
    have : c ∈ s := List.mem_of_mem_getLast? hq
    simp [h c this]

lemma startsWith2Slash_eq_false {s : List Char}
    (h : startsWithChar s '/' = false) : startsWith2Slash s = false := by
  cases s with
  | nil => rfl
  | cons a t =>
    cases t with
    | nil => rfl
    | cons b t2 =>
      have ha : ¬ (a = '/') := by simpa [startsWithChar] using h
      simp [startsWith2Slash, ha]

lemma trimPfxSlash_of_no_slash {s : List Char}
    (h : startsWithChar s '/' = false) : trimPfxSlash s = s := by
  rw [trimPfxSlash, h]
  rfl

/-- C10 (amended): a non-empty connection string containing no scheme
separator, path separator, query or fragment delimiter, percent sign or
control byte parses with the whole string as the path, and the derived
database name is the input itself. -/
theorem extractDatabaseName_bare_word (s : List Char) (hne : s ≠ [])
    (hok : ∀ c ∈ s, c ≠ ':' ∧ c ≠ '/' ∧ c ≠ '?' ∧ c ≠ '#' ∧ c ≠ '%' ∧
      isCtlByte c = false) :
    urlParse s = .ok ⟨s, none⟩ ∧ extractDatabaseName s = .ok s := by
  have hcut : cutChar s '#' = (s, [], false) :=
    cutChar_not_found (fun c hc => (hok c hc).2.2.2.1)
  have hctl : s.any isCtlByte = false :=
    List.any_eq_false.mpr (fun c hc => by simp [(hok c hc).2.2.2.2.2])
  have hsw : startsWithChar s '/' = false := by
    cases s with
    | nil => rfl
    | cons c t =>
      have := (hok c (by simp)).2.1
      simp [startsWithChar, this]
  have hinner : urlParseInner s = .ok ⟨s, none⟩ := by
    by_cases hstar : s = ['*']
    · subst hstar
      rfl
    · have hscheme : getScheme s = .ok ([], s) := by
        unfold getScheme
        rw [getSchemeGo_no_colon s [] (fun c hc => (hok c hc).1)]
        rfl
      have hq : hasLastQmark s = false :=
        hasLastQmark_eq_false (fun c hc => (hok c hc).2.2.1)
      have hcutq : cutChar s '?' = (s, [], false) :=
        cutChar_not_found (fun c hc => (hok c hc).2.2.1)
      have hcuts : cutChar s '/' = (s, [], false) :=
        cutChar_not_found (fun c hc => (hok c hc).2.1)
      have hcol : s.contains ':' = false :=
        contains_eq_false_of_all (fun c hc => (hok c hc).1)
      have hsw2 : startsWith2Slash s = false := startsWith2Slash_eq_false hsw
      have hunesc : unescapePercent s = some s :=
        unescapePercent_no_pct (fun c hc => (hok c hc).2.2.2.2.1)
      have hstep : urlSetPathStep [] s = .ok ⟨s, none⟩ := by
        unfold urlSetPathStep
        rw [hsw2, Bool.and_false, if_neg (by simp), hunesc]
      have hmem : ':' ∉ s := fun hc => ((hok ':' hc).1) rfl
      unfold urlParseInner
      rw [hctl]
      simp [if_neg hstar, hscheme, hq, hcutq, hcuts, hsw, hmem, hstep]
  have hparse : urlParse s = .ok ⟨s, none⟩ := by
    unfold urlParse
    rw [hcut]
    simp only [hinner]
    rfl
  refine ⟨hparse, ?_⟩
  unfold extractDatabaseName
  rw [hparse]
  unfold extractDbNameFromURL
  simp only [trimPfxSlash_of_no_slash hsw]
  rw [if_neg hne, if_neg hne]

/-- Witness for the amended C10 at the bare word `mydb`. -/
theorem extractDatabaseName_bare_word_witness :
    urlParse (chars "mydb") = .ok ⟨chars "mydb", none⟩ ∧
    extractDatabaseName (chars "mydb") = .ok (chars "mydb") :=
  extractDatabaseName_bare_word (chars "mydb") (by decide) (by decide)

/-- C10 counterexample: `a?b` contains no scheme separator and no path
separator, yet parsing succeeds with path `a` only, so the derived
database name is `a`, not the whole input. -/
theorem extractDatabaseName_bare_word_cex :
    (chars "a?b").all (fun c => !(c == ':') && !(c == '/')) = true ∧
    chars "a?b" ≠ [] ∧
    extractDatabaseName (chars "a?b") = Except.ok (chars "a") ∧
    chars "a" ≠ chars "a?b" := by
  decide

/-- C2 (amended): for every parsed URL, if the path stripped of its
leading separator is non-empty the derived name is that stripped path; if
the stripped path is empty but a non-empty credential principal is
present the derived name is the principal; if neither yields a non-empty
value the derivation fails with the validation error. -/
theorem extractDbNameFromURL_cases (u : GoURL) :
    (trimPfxSlash u.path ≠ [] →
      extractDbNameFromURL u = .ok (trimPfxSlash u.path)) ∧
    (trimPfxSlash u.path = [] → ∀ usr, u.user = some usr → usr ≠ [] →
      extractDbNameFromURL u = .ok usr) ∧
    (trimPfxSlash u.path = [] → (u.user = none ∨ u.user = some []) →
      extractDbNameFromURL u =
        .error (chars "No database name or username found in the connection URL")) := by
  refine ⟨?_, ?_, ?_⟩
  · intro h
    simp only [extractDbNameFromURL]
    rw [if_neg h, if_neg h]
  · intro h usr husr hne
    simp only [extractDbNameFromURL]
    rw [if_pos h, husr]
    rw [if_neg hne]
  · intro h hu
    simp only [extractDbNameFromURL]
    rw [if_pos h]
    rcases hu with hu | hu
    · rw [hu, if_pos h]
    · rw [hu, if_pos rfl]

/-- Witness for the amended C2: the three branches at concrete URLs. -/
theorem extractDbNameFromURL_cases_witness :
    extractDbNameFromURL ⟨chars "/mydb", none⟩ =
      .ok (trimPfxSlash (chars "/mydb")) ∧
    extractDbNameFromURL ⟨[], some (chars "alice")⟩ = .ok (chars "alice") ∧
    extractDbNameFromURL ⟨chars "/", none⟩ =
      .error (chars "No database name or username found in the connection URL") :=
  ⟨(extractDbNameFromURL_cases ⟨chars "/mydb", none⟩).1 (by decide),
    (extractDbNameFromURL_cases ⟨[], some (chars "alice")⟩).2.1 (by decide)
      (chars "alice") rfl (by decide),
    (extractDbNameFromURL_cases ⟨chars "/", none⟩).2.2 (by decide)
      (Or.inl rfl)⟩

/-- C2 counterexample: the URL with path `/` (non-empty) and principal
`alice` — as produced by e.g. `postgres://alice@localhost:5432/` — derives
the name `alice`, not the stripped path (which is empty), so the claim's
first branch is false for a non-empty path whose stripped form is empty. -/
theorem extractDbNameFromURL_slash_cex :
    (GoURL.mk (chars "/") (some (chars "alice"))).path ≠ [] ∧
    extractDbNameFromURL ⟨chars "/", some (chars "alice")⟩ ≠
      Except.ok (trimPfxSlash (chars "/")) ∧
    extractDbNameFromURL ⟨chars "/", some (chars "alice")⟩ =
      Except.ok (chars "alice") := by
  decide

/-! ## The effectful pipeline as an event trace

`processBackup`, `runPgDumpToTar`, `createDockerImage` and
`createContainer` are modelled as functions from the responses of the
external world (the dump subprocess, the Docker engine, the clock) to the
ordered list of observable actions plus the outcome: a normal return or a
Go `panic` (which aborts the whole invocation; no function recovers).
`log.Fatalf` on a tar write failure is unreachable because writes to a
`bytes.Buffer` cannot fail, and temp-file IO errors are not modelled. -/

/-- The payload of a Go `panic`: `panic(err)` carries an `error` value,
`panic("...")` carries a string — distinct dynamic types in Go. -/
inductive PanicVal where
  | ofError (msg : List Char)
  | ofString (msg : List Char)
  deriving DecidableEq, Repr

/-- Operator-visible messages (`println`, `fmt.Printf`, `fmt.Println`),
identified by their format string; payload-free prefixes abbreviated. -/
inductive Msg where
  | step1Processing
  | step2CreatingImage
  | step2CreatingContainer
  | dumpStderr (s : List Char)
  | imageBuilt (tag : List Char)
  | containerCreated (cname : List Char)
  deriving DecidableEq, Repr

/-- Observable pipeline actions, in program order. -/
inductive Event where
  | tempWrite
  | printed (m : Msg)
  | dumpRun
  | tarWriteDump (size : Nat)
  | tarWriteRecipe
  | engineBuild
  | drainStream
  | closeStream
  | containerCreate (image cname : List Char)
  | containerStart (id : List Char)
  | showHelp
  deriving DecidableEq, Repr

/-- Archive writes: the `dump.sql` member or the `Dockerfile` member. -/
def Event.isArchiveWrite : Event → Bool
  | .tarWriteDump _ => true
  | .tarWriteRecipe => true
  | _ => false

/-- Calls reaching the container engine (build, create, start). -/
def Event.isEngineCall : Event → Bool
  | .engineBuild => true
  | .containerCreate _ _ => true
  | .containerStart _ => true
  | _ => false

/-- A container start call. -/
def Event.isStart : Event → Bool
  | .containerStart _ => true
  | _ => false

/-- Result of the dump subprocess: `cmd.Start` error, exit status
(`cmd.Wait` returns an `*ExitError` exactly when it is non-zero), and the
captured output streams. -/
structure ProcResult where
  startErr : Option (List Char)
  exitCode : Nat
  stdout : List Nat
  stderr : List Char
  deriving DecidableEq, Repr

/-- Response of `apiClient.ImageBuild`: the returned error and the
response stream (`none` models a nil `Body`). -/
structure BuildResp where
  err : Option (List Char)
  body : Option Unit
  deriving DecidableEq, Repr

/-- A wall-clock instant as read through `time.Now()`. -/
structure GoTime where
  year : Nat
  month : Nat
  day : Nat
  hour : Nat
  minute : Nat
  second : Nat
  deriving DecidableEq, Repr

/-- Everything the pipeline observes of the outside world in one run. -/
structure ExtWorld where
  tmpExists : Bool
  proc : ProcResult
  clientErr : Option (List Char)
  build : BuildResp
  createErr : Option (List Char)
  time : GoTime
  unixTime : Nat
  deriving DecidableEq, Repr

/-- Decimal digits of `n` as characters
(Go `strconv.FormatInt(n, 10)`, `%d`). -/
def decChars (n : Nat) : List Char :=
  if n = 0 then ['0'] else (digitsF 10 n).reverse.map (fun d => Char.ofNat (48 + d))

/-- Two-digit zero-padded field of Go `time.Format` (`01`, `02`, `15`,
`04`). -/
def pad2 (n : Nat) : List Char :=
  if n < 10 then '0' :: decChars n else decChars n

/-- Four-digit zero-padded year field of Go `time.Format` (`2006`). -/
def pad4 (n : Nat) : List Char :=
  List.replicate (4 - (decChars n).length) '0' ++ decChars n

/-- `currentTime.Format("2006-01-02-1504")` (main.go:159-161): year,
month, day, hour and minute, with minute resolution — the seconds of the
instant do not appear. -/
def formatBuildTime (t : GoTime) : List Char :=
  pad4 t.year ++ chars "-" ++ pad2 t.month ++ chars "-" ++ pad2 t.day ++
    chars "-" ++ pad2 t.hour ++ pad2 t.minute

/-- `fullImageName := imageName + "-" + formattedTime + ":latest"`
(main.go:163). -/
def fullImageNameOf (imageName : List Char) (t : GoTime) : List Char :=
  imageName ++ chars "-" ++ formatBuildTime t ++ chars ":latest"

/-- `containerName := "postgres-" + databaseName + "-" + unixSeconds`
(main.go:221). -/
def containerNameOf (databaseName : List Char) (unixTime : Nat) : List Char :=
  chars "postgres-" ++ databaseName ++ chars "-" ++ decChars unixTime

/-- `runPgDumpToTar` (main.go:231-266) as a trace: start the subprocess
(panic on a start error), wait; on a non-zero exit print the captured
standard error and panic with the wait error; otherwise write the
`dump.sql` member sized to the captured output. -/
def runPgDumpToTar (proc : ProcResult) : List Event × Option PanicVal :=
  match proc.startErr with
  | some e => ([], some (.ofError e))
  | none =>
    if proc.exitCode ≠ 0 then
      ([Event.dumpRun, Event.printed (Msg.dumpStderr proc.stderr)],
        some (.ofError (chars "exit status " ++ decChars proc.exitCode)))
    else
      ([Event.dumpRun, Event.tarWriteDump proc.stdout.length], none)

/-- `createDockerImage` (main.go:140-197) as a trace: print the step
banner, write the `Dockerfile` member and close the archive, call
`ImageBuild`; panic with the engine error if the call errored (no close —
the deferred close is registered only later); panic with the fixed string
if the stream is nil; otherwise drain the stream to EOF, print the
success notice with the generated tag, and run the deferred close at
return.  The `databaseName` build argument does not surface as an
observable action. -/
def createDockerImage (imageName : List Char) (build : BuildResp)
    (t : GoTime) (_databaseName : List Char) :
    List Event × Except PanicVal (List Char) :=
  let pre := [Event.printed Msg.step2CreatingImage, Event.tarWriteRecipe,
    Event.engineBuild]
  match build.err with
  | some e => (pre, .error (.ofError e))
  | none =>
    match build.body with
    | none =>
      (pre, .error (.ofString
        (chars "Unknown error occurred when building docker image")))
    | some _ =>
      (pre ++ [Event.drainStream,
        Event.printed (Msg.imageBuilt (fullImageNameOf imageName t)),
        Event.closeStream], .ok (fullImageNameOf imageName t))

/-- `createContainer` (main.go:199-229) as a trace: print the step
banner, call `ContainerCreate` with the generated name (panic on error),
print the created-container notice.  No start call exists in the
function. -/
def createContainer (databaseName imageName : List Char) (unixTime : Nat)
    (createErr : Option (List Char)) : List Event × Option PanicVal :=
  let cname := containerNameOf databaseName unixTime
  match createErr with
  | some e =>
    ([Event.printed Msg.step2CreatingContainer,
      Event.containerCreate imageName cname], some (.ofError e))
  | none =>
    ([Event.printed Msg.step2CreatingContainer,
      Event.containerCreate imageName cname,
      Event.printed (Msg.containerCreated cname)], none)

/-- `processBackup` (main.go:67-117) as a trace: print the step-1 banner,
materialize the embedded dump tool when the temp path does not yet exist,
derive the database name (panic on a validation error), run the dump
step, initialize the Docker client (panic on error), build the image, and
create a container only when the flag is set. -/
def processBackup (w : ExtWorld) (connectionURL : List Char)
    (createContainerFlag : Bool) : List Event × Option PanicVal :=
  let ev0 := [Event.printed Msg.step1Processing] ++
    (if w.tmpExists then [] else [Event.tempWrite])
  match extractDatabaseName connectionURL with
  | .error e => (ev0, some (.ofError e))
  | .ok databaseName =>
    let r1 := runPgDumpToTar w.proc
    match r1.2 with
    | some p => (ev0 ++ r1.1, some p)
    | none =>
      match w.clientErr with
      | some e => (ev0 ++ r1.1, some (.ofError e))
      | none =>
        let r2 := createDockerImage databaseName w.build w.time databaseName
        match r2.2 with
        | .error p => (ev0 ++ r1.1 ++ r2.1, some p)
        | .ok imageName =>
          if createContainerFlag then
            let r3 := createContainer databaseName imageName w.unixTime
              w.createErr
            (ev0 ++ r1.1 ++ r2.1 ++ r3.1, r3.2)
          else (ev0 ++ r1.1 ++ r2.1, none)

/-- The command action (main.go:47-59): with a non-empty first positional
argument run `processBackup`; otherwise show the help text.  The action
always returns a nil error, so `cli.Run` never reaches `log.Fatal`. -/
def cliAction (w : ExtWorld) (args : List (List Char))
    (containerFlag : Bool) : List Event × Option PanicVal :=
  let connectionURL := args.headD []
  if connectionURL.length > 0 then processBackup w connectionURL containerFlag
  else ([Event.showHelp], none)

/-- C7: the image tag is a deterministic function of the database name
and the instant with minute resolution — the seconds of the instant do
not influence it — and `testdb` at 2024-03-05 09:07 yields
`testdb-2024-03-05-0907:latest`. -/
theorem image_tag_generation :
    (∀ (db : List Char) (y mo d h mi s s' : Nat),
      fullImageNameOf db ⟨y, mo, d, h, mi, s⟩ =
        fullImageNameOf db ⟨y, mo, d, h, mi, s'⟩) ∧
    (∀ s : Nat, fullImageNameOf (chars "testdb") ⟨2024, 3, 5, 9, 7, s⟩ =
      chars "testdb-2024-03-05-0907:latest") := by
  have hdet : ∀ (db : List Char) (y mo d h mi s s' : Nat),
      fullImageNameOf db ⟨y, mo, d, h, mi, s⟩ =
        fullImageNameOf db ⟨y, mo, d, h, mi, s'⟩ := fun _ _ _ _ _ _ _ _ => rfl
  have h0 : fullImageNameOf (chars "testdb") ⟨2024, 3, 5, 9, 7, 0⟩ =
      chars "testdb-2024-03-05-0907:latest" := by decide
  exact ⟨hdet, fun s => (hdet (chars "testdb") 2024 3 5 9 7 s 0).trans h0⟩

/-- C9: with no positional argument the action only shows the help text
and returns without error: no pipeline event, no panic, a nil return. -/
theorem no_argument_shows_help (w : ExtWorld) (flag : Bool) :
    cliAction w [] flag = ([Event.showHelp], none) :=
  rfl

/-- C5: an error-less `ImageBuild` response with a nil stream panics with
the fixed unknown-error string, which is distinct from the `panic(err)`
raised on an engine-reported error — for every reported error value. -/
theorem nil_body_unknown_error (imageName db : List Char) (t : GoTime) :
    (createDockerImage imageName ⟨none, none⟩ t db).2 =
      Except.error (PanicVal.ofString
        (chars "Unknown error occurred when building docker image")) ∧
    (∀ (e : List Char) (body : Option Unit),
      (createDockerImage imageName ⟨some e, body⟩ t db).2 =
        Except.error (PanicVal.ofError e)) ∧
    (∀ (e msg : List Char), PanicVal.ofString msg ≠ PanicVal.ofError e) :=
  ⟨rfl, fun _ _ => rfl, fun _ _ h => PanicVal.noConfusion h⟩

/-- C4: whenever `ImageBuild` hands over a stream (under the Docker
client's contract that an errored call carries no stream), the build step
drains the stream to EOF before printing the success notice and closes it
at exit — the trace is exactly banner, archive write, build call, drain,
success print, close. -/
theorem createDockerImage_drain_close (imageName db : List Char)
    (resp : BuildResp) (t : GoTime)
    (hclient : resp.err ≠ none → resp.body = none)
    (hbody : resp.body.isSome = true) :
    (createDockerImage imageName resp t db).1 =
      [Event.printed Msg.step2CreatingImage, Event.tarWriteRecipe,
        Event.engineBuild, Event.drainStream,
        Event.printed (Msg.imageBuilt (fullImageNameOf imageName t)),
        Event.closeStream] := by
  obtain ⟨berr, bbody⟩ := resp
  cases berr with
  | some e =>
    have hb : bbody = none := hclient (by simp)
    subst hb
    simp at hbody
  | none =>
    cases bbody with
    | none => simp at hbody
    | some u => rfl

/-- Witness for C4 at a concrete error-less response with a stream. -/
theorem createDockerImage_drain_close_witness :
    (createDockerImage (chars "testdb") ⟨none, some ()⟩ ⟨2024, 3, 5, 9, 7, 0⟩
      (chars "testdb")).1 =
      [Event.printed Msg.step2CreatingImage, Event.tarWriteRecipe,
        Event.engineBuild, Event.drainStream,
        Event.printed (Msg.imageBuilt
          (fullImageNameOf (chars "testdb") ⟨2024, 3, 5, 9, 7, 0⟩)),
        Event.closeStream] :=
  createDockerImage_drain_close (chars "testdb") (chars "testdb")
    ⟨none, some ()⟩ ⟨2024, 3, 5, 9, 7, 0⟩ (fun h => absurd rfl h) rfl

/-- C3 (amended): the launcher adapter creates the container (and reports
its name) but never issues a start call — no trace of `createContainer`
contains a start event, for any creation outcome. -/
theorem createContainer_creates_without_start (db img : List Char)
    (unix : Nat) (cerr : Option (List Char)) :
    ((createContainer db img unix cerr).1.all (fun e => !e.isStart)) = true ∧
    (createContainer db img unix none).1 =
      [Event.printed Msg.step2CreatingContainer,
        Event.containerCreate img (containerNameOf db unix),
        Event.printed (Msg.containerCreated (containerNameOf db unix))] ∧
    (createContainer db img unix none).2 = none := by
  refine ⟨?_, rfl, rfl⟩
  cases cerr with
  | none => rfl
  | some e => rfl

/-- C3 counterexample: a successful creation at a concrete image and
instant — the created container is never started (no start call appears
in the trace), refuting "explicitly starts the created instance". -/
theorem createContainer_no_start_cex :
    (createContainer (chars "testdb") (chars "img:latest") 1700000000
      none).2 = none ∧
    Event.containerCreate (chars "img:latest")
      (containerNameOf (chars "testdb") 1700000000) ∈
      (createContainer (chars "testdb") (chars "img:latest") 1700000000
        none).1 ∧
    ((createContainer (chars "testdb") (chars "img:latest") 1700000000
      none).1.all (fun e => !e.isStart)) = true := by
  decide

/-- C6: when the dump subprocess exits non-zero, the captured standard
error is printed (it is the last event before the panic surfaces the
failure) and the pipeline aborts with no archive write and no engine
call of any kind. -/
theorem dump_failure_aborts (w : ExtWorld) (url : List Char) (flag : Bool)
    (db : List Char) (hdb : extractDatabaseName url = Except.ok db)
    (hstart : w.proc.startErr = none) (hexit : w.proc.exitCode ≠ 0) :
    (processBackup w url flag).1 =
      ([Event.printed Msg.step1Processing] ++
        (if w.tmpExists then [] else [Event.tempWrite])) ++
        [Event.dumpRun, Event.printed (Msg.dumpStderr w.proc.stderr)] ∧
    (processBackup w url flag).2 =
      some (.ofError (chars "exit status " ++ decChars w.proc.exitCode)) ∧
    ((processBackup w url flag).1.all
      (fun e => !e.isArchiveWrite && !e.isEngineCall)) = true := by
  have hrun : runPgDumpToTar w.proc =
      ([Event.dumpRun, Event.printed (Msg.dumpStderr w.proc.stderr)],
        some (.ofError (chars "exit status " ++ decChars w.proc.exitCode))) := by
    unfold runPgDumpToTar
    rw [hstart, if_pos hexit]
  have hmain : processBackup w url flag =
      (([Event.printed Msg.step1Processing] ++
        (if w.tmpExists then [] else [Event.tempWrite])) ++
        [Event.dumpRun, Event.printed (Msg.dumpStderr w.proc.stderr)],
        some (.ofError (chars "exit status " ++ decChars w.proc.exitCode))) := by
    simp only [processBackup, hdb, hrun]
  refine ⟨by rw [hmain], by rw [hmain], ?_⟩
  rw [hmain]
  refine List.all_eq_true.mpr ?_
  intro e he
  rcases List.mem_append.mp he with h1 | h2
  · rcases List.mem_append.mp h1 with h0 | ht
    · rcases List.mem_singleton.mp h0 with rfl
      rfl
    · by_cases htmp : w.tmpExists = true
      · rw [if_pos htmp] at ht
        simp at ht
      · rw [if_neg htmp] at ht
        rcases List.mem_singleton.mp ht with rfl
        rfl
  · rcases List.mem_cons.mp h2 with rfl | h3
    · rfl
    · rcases List.mem_singleton.mp h3 with rfl
      rfl

/-- Witness for C6: a concrete world whose dump subprocess exits 1. -/
theorem dump_failure_aborts_witness :
    (processBackup ⟨true, ⟨none, 1, [], chars "pg_dump: error"⟩, none,
      ⟨none, some ()⟩, none, ⟨2024, 3, 5, 9, 7, 0⟩, 1700000000⟩
      (chars "mydb") true).1 =
      ([Event.printed Msg.step1Processing] ++ (if true then [] else
        [Event.tempWrite])) ++
        [Event.dumpRun, Event.printed (Msg.dumpStderr
          (chars "pg_dump: error"))] ∧
    (processBackup ⟨true, ⟨none, 1, [], chars "pg_dump: error"⟩, none,
      ⟨none, some ()⟩, none, ⟨2024, 3, 5, 9, 7, 0⟩, 1700000000⟩
      (chars "mydb") true).2 =
      some (.ofError (chars "exit status " ++ decChars 1)) ∧
    ((processBackup ⟨true, ⟨none, 1, [], chars "pg_dump: error"⟩,
      none, ⟨none, some ()⟩, none, ⟨2024, 3, 5, 9, 7, 0⟩, 1700000000⟩
      (chars "mydb") true).1.all
      (fun e => !e.isArchiveWrite && !e.isEngineCall)) = true :=
  dump_failure_aborts _ (chars "mydb") true (chars "mydb") (by decide)
    rfl (by decide)

/-- C8 (amended): when connection-string validation fails, the failure is
surfaced as the panic outcome and the pipeline never starts — no dump
subprocess run, no archive write, no engine call; the only prior actions
are the step banner and (when the temp path was absent) the temp-file
materialization of the embedded dump tool, which precedes validation. -/
theorem validation_failure_aborts (w : ExtWorld) (url : List Char)
    (flag : Bool) (e : List Char)
    (hfail : extractDatabaseName url = Except.error e) :
    (processBackup w url flag).1 =
      [Event.printed Msg.step1Processing] ++
        (if w.tmpExists then [] else [Event.tempWrite]) ∧
    (processBackup w url flag).2 = some (.ofError e) ∧
    ((processBackup w url flag).1.all (fun ev => !ev.isArchiveWrite &&
      !ev.isEngineCall && !(ev == Event.dumpRun))) = true := by
  have hmain : processBackup w url flag =
      ([Event.printed Msg.step1Processing] ++
        (if w.tmpExists then [] else [Event.tempWrite]),
        some (.ofError e)) := by
    simp only [processBackup, hfail]
  refine ⟨by rw [hmain], by rw [hmain], ?_⟩
  rw [hmain]
  refine List.all_eq_true.mpr ?_
  intro ev hev
  rcases List.mem_append.mp hev with h0 | ht
  · rcases List.mem_singleton.mp h0 with rfl
    rfl
  · by_cases htmp : w.tmpExists = true
    · rw [if_pos htmp] at ht
      simp at ht
    · rw [if_neg htmp] at ht
      rcases List.mem_singleton.mp ht with rfl
      rfl

/-- Witness for the amended C8 at the malformed connection string `:`. -/
theorem validation_failure_aborts_witness :
    (processBackup ⟨false, ⟨none, 0, [], []⟩, none, ⟨none, none⟩, none,
      ⟨2024, 3, 5, 9, 7, 0⟩, 1700000000⟩ (chars ":") false).1 =
      [Event.printed Msg.step1Processing] ++
        (if false then [] else [Event.tempWrite]) ∧
    (processBackup ⟨false, ⟨none, 0, [], []⟩, none, ⟨none, none⟩, none,
      ⟨2024, 3, 5, 9, 7, 0⟩, 1700000000⟩ (chars ":") false).2 =
      some (.ofError
        (chars "Invalid Postgres connection URL: missing protocol scheme")) ∧
    ((processBackup ⟨false, ⟨none, 0, [], []⟩, none, ⟨none, none⟩,
      none, ⟨2024, 3, 5, 9, 7, 0⟩, 1700000000⟩ (chars ":") false).1.all
      (fun ev => !ev.isArchiveWrite && !ev.isEngineCall &&
        !(ev == Event.dumpRun))) = true :=
  validation_failure_aborts _ (chars ":") false
    (chars "Invalid Postgres connection URL: missing protocol scheme")
    (by decide)

/-- C8 counterexample: with the temp path absent and the malformed
connection string `:`, validation fails, yet the temporary-file write of
the embedded dump tool has already happened — it precedes validation in
`processBackup`, refuting "no side effect (including the temporary-file
write) occurs". -/
theorem temp_write_precedes_validation_cex :
    extractDatabaseName (chars ":") = Except.error
      (chars "Invalid Postgres connection URL: missing protocol scheme") ∧
    Event.tempWrite ∈
      (processBackup ⟨false, ⟨none, 0, [], []⟩, none, ⟨none, none⟩, none,
        ⟨2024, 3, 5, 9, 7, 0⟩, 1700000000⟩ (chars ":") false).1 ∧
    (processBackup ⟨false, ⟨none, 0, [], []⟩, none, ⟨none, none⟩, none,
      ⟨2024, 3, 5, 9, 7, 0⟩, 1700000000⟩ (chars ":") false).2 =
      some (.ofError
        (chars "Invalid Postgres connection URL: missing protocol scheme")) := by
  decide
